import Mathlib

/-!
Verification of the rate-limited request scheduler and Polygon data client of the
stock-price-dashboard repository.

The first part embeds `src/services/rateLimitManager.ts` as a labeled transition
system.  The JavaScript runtime is single-threaded and the drain loop
(`processQueue`) only yields control at its two `await` points (the in-flight
`request.execute()` call and the quota `sleep`), so we cut the method bodies at
those suspension points: every synchronous segment between two suspension points
becomes one atomic transition.  The model keeps one `LoopPhase` entry per active
drain-loop continuation; this is necessary because `clearQueue()` resets the
`processing` flag unconditionally, which allows a second drain loop to start
while an earlier one is suspended.

Ghost fields (`time`, `hist`, `dispatched`, `settled`, `cutoff`) record the
wall-clock of the last event, the full history of dispatch timestamps, the
dispatch log in order, the settlement log, and the largest pruning cutoff used
so far.  They never influence enabledness or the evolution of the real fields
(`requests`, `queue`, `processing`, `requestCounter`).

Wall-clock instants are integers (epoch milliseconds).  Each transition carries
the `Date.now()` values it reads, constrained to be monotone along a trace.
-/

/-- Mirror of `RateLimitConfig` from `src/types` (the optional `retryAfter`
field is never read by the scheduler and is omitted). -/
structure RateLimitConfig where
  maxRequests : Nat
  windowMs : Int
deriving DecidableEq

/-- Mirror of `QueuedRequest` from `rateLimitManager.ts`: `idx` is the value of
`requestCounter` used to build the request id, `timestamp` is the enqueue time.
The `execute`/`resolve`/`reject` closures are represented by the ghost
settlement log of the transition system. -/
structure QueuedRequest where
  idx : Nat
  timestamp : Int
deriving DecidableEq

/-- Continuation state of one activation of `processQueue`: about to run the
`while` test and admission check (`deciding`), suspended on
`await request.execute()` (`inFlight`, with the dequeued item and its recorded
dispatch timestamp), or suspended on `await this.sleep(...)` (`sleeping`, with
the wake-up instant). -/
inductive LoopPhase where
  | deciding : LoopPhase
  | inFlight : QueuedRequest → Int → LoopPhase
  | sleeping : Int → LoopPhase
deriving DecidableEq

/-- Outcome with which a completion handle is settled: the executed function
resolved, it rejected, or the request was rejected by `clearQueue()` with the
queue-cleared error (`new Error('Request queue cleared')`). -/
inductive Outcome where
  | success : Outcome
  | failure : Outcome
  | cleared : Outcome
deriving DecidableEq

/-- State of a `RateLimitManager` instance.  `config`, `requests`, `queue`,
`processing` and `requestCounter` are the object's fields; the remaining
fields are ghost bookkeeping for the proofs (see the file header). -/
structure ManagerState where
  config : RateLimitConfig
  requests : List Int
  queue : List QueuedRequest
  processing : Bool
  requestCounter : Nat
  time : Int
  loops : List LoopPhase
  hist : List Int
  dispatched : List (Nat × Int)
  settled : List (Nat × Outcome)
  cutoff : Int
deriving DecidableEq

/-- Mirror of `cleanupOldRequests`: keep the timestamps strictly newer than
`now - windowMs` (`timestamp > cutoff` in the source filter). -/
def cleanupOldRequests (windowMs now : Int) (rs : List Int) : List Int :=
  rs.filter (fun ts => decide (now - windowMs < ts))

/-- Mirror of `canMakeRequest`: `this.requests.length < this.config.maxRequests`. -/
def canMakeRequest (cfg : RateLimitConfig) (rs : List Int) : Bool :=
  decide (rs.length < cfg.maxRequests)

/-- `Math.min(...list)` for a nonempty list, `none` when the list is empty. -/
def minTimestamp : List Int → Option Int
  | [] => none
  | t :: ts => some (ts.foldl min t)

/-- Mirror of `getWaitTime`: `0` when no request is tracked, otherwise
`max(windowMs - (now - oldest), 1000)`. -/
def getWaitTime (cfg : RateLimitConfig) (now : Int) (rs : List Int) : Int :=
  match minTimestamp rs with
  | none => 0
  | some oldest => max (cfg.windowMs - (now - oldest)) 1000

/-- Snapshot returned by `getStatus`. -/
structure RateLimitStatus where
  requestsInWindow : Nat
  maxRequests : Nat
  queueLength : Nat
  canMakeRequest : Bool
  nextAvailableTime : Int
deriving DecidableEq

/-- Mirror of `getStatus`: prune, then report the pruned count, the configured
maximum, the queue length, the admission predicate, and `min(requests) +
windowMs` when a request is tracked (else `Date.now()`). -/
def getStatus (s : ManagerState) (now : Int) : RateLimitStatus :=
  let rs := cleanupOldRequests s.config.windowMs now s.requests
  { requestsInWindow := rs.length
    maxRequests := s.config.maxRequests
    queueLength := s.queue.length
    canMakeRequest := canMakeRequest s.config rs
    nextAvailableTime :=
      match minTimestamp rs with
      | some oldest => oldest + s.config.windowMs
      | none => now }

/-- Effect of `execute(fn)` at time `t`: push a fresh `QueuedRequest` (the
counter is pre-incremented) and run `processQueue()` up to its first suspension
of the synchronous prefix: if `processing` was set the call returns at its
guard; otherwise it sets `processing` and a new drain-loop continuation starts
in the `deciding` phase. -/
def submitPost (s : ManagerState) (t : Int) : ManagerState :=
  { s with
    queue := s.queue ++ [⟨s.requestCounter + 1, t⟩]
    requestCounter := s.requestCounter + 1
    processing := true
    loops := if s.processing then s.loops else s.loops ++ [LoopPhase.deciding]
    time := t }

/-- Effect of a drain loop observing an empty queue: the `while` loop exits and
`processing` is set to `false`. -/
def loopExitPost (s : ManagerState) (i : Nat) (t : Int) : ManagerState :=
  { s with loops := s.loops.eraseIdx i, processing := false, time := t }

/-- Effect of one admitted drain-loop iteration: `cleanupOldRequests()` at time
`t1`, admission granted, `queue.shift()`, `requests.push(Date.now())` at time
`t2 ≥ t1`, then suspension on `await request.execute()`.  The ghost history,
dispatch log and cutoff are extended accordingly. -/
def dispatchPost (s : ManagerState) (i : Nat) (item : QueuedRequest)
    (rest : List QueuedRequest) (t1 t2 : Int) : ManagerState :=
  { s with
    requests := cleanupOldRequests s.config.windowMs t1 s.requests ++ [t2]
    queue := rest
    loops := s.loops.set i (LoopPhase.inFlight item t2)
    time := t2
    hist := s.hist ++ [t2]
    dispatched := s.dispatched ++ [(item.idx, t2)]
    cutoff := max s.cutoff (t1 - s.config.windowMs) }

/-- Effect of a denied drain-loop iteration: `cleanupOldRequests()`, admission
denied, compute the wait interval, then suspension on `await this.sleep(...)`. -/
def blockedPost (s : ManagerState) (i : Nat) (t : Int) : ManagerState :=
  { s with
    requests := cleanupOldRequests s.config.windowMs t s.requests
    loops := s.loops.set i (LoopPhase.sleeping
      (t + getWaitTime s.config t (cleanupOldRequests s.config.windowMs t s.requests)))
    time := t
    cutoff := max s.cutoff (t - s.config.windowMs) }

/-- Effect of the sleep timer firing: the loop resumes at the `while` test. -/
def wakePost (s : ManagerState) (i : Nat) (t : Int) : ManagerState :=
  { s with loops := s.loops.set i LoopPhase.deciding, time := t }

/-- Effect of the in-flight call settling with outcome `o`: the completion
handle is resolved or rejected and the loop resumes at the `while` test.  The
window tracker is not consulted or modified. -/
def settlePost (s : ManagerState) (i : Nat) (item : QueuedRequest) (o : Outcome)
    (t : Int) : ManagerState :=
  { s with
    loops := s.loops.set i LoopPhase.deciding
    settled := s.settled ++ [(item.idx, o)]
    time := t }

/-- Effect of `clearQueue()`: every still-queued request is rejected with the
queue-cleared error, the queue is emptied, and `processing` is reset
unconditionally.  Suspended drain-loop continuations are untouched. -/
def clearQueuePost (s : ManagerState) (t : Int) : ManagerState :=
  { s with
    settled := s.settled ++ s.queue.map (fun q => (q.idx, Outcome.cleared))
    queue := []
    processing := false
    time := t }

/-- Effect of `getStatus()` on the state: it calls `cleanupOldRequests()`. -/
def getStatusPost (s : ManagerState) (t : Int) : ManagerState :=
  { s with
    requests := cleanupOldRequests s.config.windowMs t s.requests
    time := t
    cutoff := max s.cutoff (t - s.config.windowMs) }

/-- Labels naming the eight atomic transitions. -/
inductive StepLabel where
  | submit : StepLabel
  | loopExit : StepLabel
  | dispatch : StepLabel
  | blocked : StepLabel
  | wake : StepLabel
  | settle : StepLabel
  | clear : StepLabel
  | status : StepLabel
deriving DecidableEq

/-- One atomic transition of the scheduler.  Each constructor requires the
wall clock to be monotone and states the enabling condition read off the
synchronous source segment it embeds. -/
inductive LStep : StepLabel → ManagerState → ManagerState → Prop where
  | submit (s : ManagerState) (t : Int) (ht : s.time ≤ t) :
      LStep .submit s (submitPost s t)
  | loopExit (s : ManagerState) (i : Nat) (t : Int) (ht : s.time ≤ t)
      (hl : s.loops[i]? = some LoopPhase.deciding)
      (hq : s.queue = []) :
      LStep .loopExit s (loopExitPost s i t)
  | dispatch (s : ManagerState) (i : Nat) (item : QueuedRequest)
      (rest : List QueuedRequest) (t1 t2 : Int)
      (ht : s.time ≤ t1) (ht2 : t1 ≤ t2)
      (hl : s.loops[i]? = some LoopPhase.deciding)
      (hq : s.queue = item :: rest)
      (hc : (cleanupOldRequests s.config.windowMs t1 s.requests).length
              < s.config.maxRequests) :
      LStep .dispatch s (dispatchPost s i item rest t1 t2)
  | blocked (s : ManagerState) (i : Nat) (t : Int) (ht : s.time ≤ t)
      (hl : s.loops[i]? = some LoopPhase.deciding)
      (hq : s.queue ≠ [])
      (hc : ¬ (cleanupOldRequests s.config.windowMs t s.requests).length
              < s.config.maxRequests) :
      LStep .blocked s (blockedPost s i t)
  | wake (s : ManagerState) (i : Nat) (u t : Int) (ht : s.time ≤ t) (hu : u ≤ t)
      (hl : s.loops[i]? = some (LoopPhase.sleeping u)) :
      LStep .wake s (wakePost s i t)
  | settle (s : ManagerState) (i : Nat) (item : QueuedRequest) (d : Int)
      (o : Outcome) (t : Int) (ht : s.time ≤ t)
      (hl : s.loops[i]? = some (LoopPhase.inFlight item d))
      (ho : o ≠ Outcome.cleared) :
      LStep .settle s (settlePost s i item o t)
  | clear (s : ManagerState) (t : Int) (ht : s.time ≤ t) :
      LStep .clear s (clearQueuePost s t)
  | status (s : ManagerState) (t : Int) (ht : s.time ≤ t) :
      LStep .status s (getStatusPost s t)

/-- Freshly constructed manager: all fields empty, `processing = false`.  The
ghost clock starts at `0`, and the ghost cutoff below any pruning cutoff that
can ever be used. -/
def initState (cfg : RateLimitConfig) : ManagerState :=
  { config := cfg
    requests := []
    queue := []
    processing := false
    requestCounter := 0
    time := 0
    loops := []
    hist := []
    dispatched := []
    settled := []
    cutoff := -cfg.windowMs - 1 }

/-- States reachable from a freshly constructed manager by any interleaving of
the eight transitions. -/
inductive Reachable (cfg : RateLimitConfig) : ManagerState → Prop where
  | init : Reachable cfg (initState cfg)
  | step {s s' : ManagerState} {l : StepLabel} :
      Reachable cfg s → LStep l s s' → Reachable cfg s'

/-- States reachable when `clearQueue()` is only ever invoked while the
dispatcher is idle (no drain-loop continuation is alive). -/
inductive ReachableIdleClear (cfg : RateLimitConfig) : ManagerState → Prop where
  | init : ReachableIdleClear cfg (initState cfg)
  | step {s s' : ManagerState} {l : StepLabel} :
      ReachableIdleClear cfg s → LStep l s s' →
      (l = StepLabel.clear → s.loops = []) → ReachableIdleClear cfg s'

/-- Number of drain-loop continuations currently suspended on an in-flight
network call. -/
def inflightCount (s : ManagerState) : Nat :=
  (s.loops.filter (fun lp => match lp with
    | LoopPhase.inFlight _ _ => true
    | _ => false)).length

/-! ### List helpers for the invariant proofs -/

theorem filter_newer_filter (l : List Int) (a b : Int) :
    (l.filter (fun ts => decide (a < ts))).filter (fun ts => decide (b < ts))
      = l.filter (fun ts => decide (max a b < ts)) := by
  induction l with
  | nil => rfl
  | cons x xs ih =>
    by_cases ha : a < x <;> by_cases hb : b < x <;>
      simp [List.filter_cons, ha, hb, ih, max_lt_iff]

theorem filter_newer_length_mono (l : List Int) {a b : Int} (h : b ≤ a) :
    (l.filter (fun ts => decide (a < ts))).length
      ≤ (l.filter (fun ts => decide (b < ts))).length := by
  refine List.Sublist.length_le (List.monotone_filter_right l ?_)
  intro x hx
  simp only [decide_eq_true_eq] at hx ⊢
  exact lt_of_le_of_lt h hx

theorem foldl_min_le_init (ts : List Int) (t : Int) : ts.foldl min t ≤ t := by
  induction ts generalizing t with
  | nil => exact le_rfl
  | cons y ys ih => exact le_trans (ih (min t y)) (min_le_left t y)

theorem foldl_min_le_mem (ts : List Int) (t : Int) : ∀ x ∈ ts, ts.foldl min t ≤ x := by
  induction ts generalizing t with
  | nil => intro x hx; cases hx
  | cons y ys ih =>
    intro x hx
    rcases List.mem_cons.mp hx with rfl | hx
    · exact le_trans (foldl_min_le_init ys (min t x)) (min_le_right t x)
    · exact ih (min t y) x hx

theorem foldl_min_mem (ts : List Int) (t : Int) :
    ts.foldl min t = t ∨ ts.foldl min t ∈ ts := by
  induction ts generalizing t with
  | nil => exact Or.inl rfl
  | cons y ys ih =>
    rcases ih (min t y) with h | h
    · rcases min_choice t y with h' | h'
      · exact Or.inl (by rw [List.foldl_cons, h, h'])
      · exact Or.inr (by rw [List.foldl_cons, h, h']; exact List.mem_cons_self y ys)
    · exact Or.inr (List.mem_cons_of_mem y h)

theorem minTimestamp_spec {l : List Int} {m : Int} (h : minTimestamp l = some m) :
    m ∈ l ∧ ∀ x ∈ l, m ≤ x := by
  cases l with
  | nil => cases h
  | cons t ts =>
    have hm : ts.foldl min t = m := by simpa [minTimestamp] using h
    subst hm
    refine ⟨?_, ?_⟩
    · rcases foldl_min_mem ts t with h' | h'
      · rw [h']; exact List.mem_cons_self t ts
      · exact List.mem_cons_of_mem t h'
    · intro x hx
      rcases List.mem_cons.mp hx with rfl | hx
      · exact foldl_min_le_init ts x
      · exact foldl_min_le_mem ts t x hx

theorem minTimestamp_eq_none_iff {l : List Int} : minTimestamp l = none ↔ l = [] := by
  cases l <;> simp [minTimestamp]

theorem mem_of_getElem?_eq_some {α : Type} {l : List α} {i : Nat} {a : α}
    (h : l[i]? = some a) : a ∈ l := by
  obtain ⟨hlt, rfl⟩ := List.getElem?_eq_some.mp h
  exact List.getElem_mem hlt

/-! ### The inductive invariant of the scheduler -/

/-- Inductive invariant tying the window tracker, the ghost dispatch history
and the ghost logs together.  `reqEq` says the tracker is exactly the history
restricted to timestamps newer than the largest pruning cutoff used so far;
`reqLen` bounds the tracker by the quota; the remaining fields order the queue
and the logs by submission index and relate the in-flight continuations to the
dispatch log. -/
structure SchedInv (s : ManagerState) : Prop where
  reqEq : s.requests = s.hist.filter (fun ts => decide (s.cutoff < ts))
  reqLen : s.requests.length ≤ s.config.maxRequests
  cutoffLe : s.cutoff ≤ s.time - s.config.windowMs
  histLe : ∀ ts ∈ s.hist, ts ≤ s.time
  histSorted : List.Pairwise (fun a b => a ≤ b) s.hist
  histEq : s.hist = s.dispatched.map Prod.snd
  queueSorted : List.Pairwise (fun a b => a.idx < b.idx) s.queue
  queueLe : ∀ q ∈ s.queue, q.idx ≤ s.requestCounter
  dispSorted : List.Pairwise (fun a b => a.1 < b.1) s.dispatched
  dispLtQueue : ∀ d ∈ s.dispatched, ∀ q ∈ s.queue, d.1 < q.idx
  dispLe : ∀ d ∈ s.dispatched, d.1 ≤ s.requestCounter
  inflightDisp : ∀ lp ∈ s.loops, ∀ item dt, lp = LoopPhase.inFlight item dt →
    (item.idx, dt) ∈ s.dispatched
  settledLe : ∀ p ∈ s.settled, p.1 ≤ s.requestCounter
  clearedFresh : ∀ p ∈ s.settled, p.2 = Outcome.cleared →
    (∀ q ∈ s.queue, p.1 ≠ q.idx) ∧ ∀ d ∈ s.dispatched, p.1 ≠ d.1
  gapOne : s.config.maxRequests = 1 →
    List.Pairwise (fun a b => a + s.config.windowMs ≤ b) s.hist

theorem schedInv_init (cfg : RateLimitConfig) : SchedInv (initState cfg) := by
  refine ⟨rfl, by simp [initState], ?_, ?_, ?_, rfl, ?_, ?_, ?_, ?_, ?_, ?_, ?_, ?_, ?_⟩ <;>
    simp [initState]

theorem schedInv_submit {s : ManagerState} (t : Int) (ht : s.time ≤ t) (hs : SchedInv s) :
    SchedInv (submitPost s t) := by
  obtain ⟨reqEq, reqLen, cutoffLe, histLe, histSorted, histEq, queueSorted, queueLe,
    dispSorted, dispLtQueue, dispLe, inflightDisp, settledLe, clearedFresh, gapOne⟩ := hs
  constructor <;> simp only [submitPost]
  · exact reqEq
  · exact reqLen
  · omega
  · exact fun ts h => le_trans (histLe ts h) ht
  · exact histSorted
  · exact histEq
  · refine List.pairwise_append.mpr ⟨queueSorted, List.pairwise_singleton _ _, ?_⟩
    intro a ha b hb
    rw [List.mem_singleton.mp hb]
    exact Nat.lt_succ_of_le (queueLe a ha)
  · intro q hq
    rcases List.mem_append.mp hq with h | h
    · exact le_trans (queueLe q h) (Nat.le_succ _)
    · rw [List.mem_singleton.mp h]
  · exact dispSorted
  · intro d hd q hq
    rcases List.mem_append.mp hq with h | h
    · exact dispLtQueue d hd q h
    · rw [List.mem_singleton.mp h]
      exact Nat.lt_succ_of_le (dispLe d hd)
  · exact fun d hd => le_trans (dispLe d hd) (Nat.le_succ _)
  · intro lp hlp item dt he
    by_cases hp : s.processing <;> simp only [hp, if_true, if_false, Bool.false_eq_true,
      ite_true, ite_false] at hlp
    · exact inflightDisp lp hlp item dt he
    · rcases List.mem_append.mp hlp with h | h
      · exact inflightDisp lp h item dt he
      · rw [List.mem_singleton.mp h] at he
        cases he
  · exact fun p hp => le_trans (settledLe p hp) (Nat.le_succ _)
  · intro p hp hcl
    obtain ⟨h1, h2⟩ := clearedFresh p hp hcl
    refine ⟨?_, h2⟩
    intro q hq
    rcases List.mem_append.mp hq with h | h
    · exact h1 q h
    · rw [List.mem_singleton.mp h]
      exact Nat.ne_of_lt (Nat.lt_succ_of_le (settledLe p hp))
  · exact gapOne

theorem schedInv_loopExit {s : ManagerState} (i : Nat) (t : Int) (ht : s.time ≤ t)
    (hs : SchedInv s) : SchedInv (loopExitPost s i t) := by
  obtain ⟨reqEq, reqLen, cutoffLe, histLe, histSorted, histEq, queueSorted, queueLe,
    dispSorted, dispLtQueue, dispLe, inflightDisp, settledLe, clearedFresh, gapOne⟩ := hs
  constructor <;> simp only [loopExitPost]
  · exact reqEq
  · exact reqLen
  · omega
  · exact fun ts h => le_trans (histLe ts h) ht
  · exact histSorted
  · exact histEq
  · exact queueSorted
  · exact queueLe
  · exact dispSorted
  · exact dispLtQueue
  · exact dispLe
  · intro lp hlp item dt he
    exact inflightDisp lp (List.Sublist.mem hlp (List.eraseIdx_sublist s.loops i)) item dt he
  · exact settledLe
  · exact clearedFresh
  · exact gapOne

theorem schedInv_wake {s : ManagerState} (i : Nat) (t : Int) (ht : s.time ≤ t)
    (hs : SchedInv s) : SchedInv (wakePost s i t) := by
  obtain ⟨reqEq, reqLen, cutoffLe, histLe, histSorted, histEq, queueSorted, queueLe,
    dispSorted, dispLtQueue, dispLe, inflightDisp, settledLe, clearedFresh, gapOne⟩ := hs
  constructor <;> simp only [wakePost]
  · exact reqEq
  · exact reqLen
  · omega
  · exact fun ts h => le_trans (histLe ts h) ht
  · exact histSorted
  · exact histEq
  · exact queueSorted
  · exact queueLe
  · exact dispSorted
  · exact dispLtQueue
  · exact dispLe
  · intro lp hlp item dt he
    subst he
    rcases List.mem_or_eq_of_mem_set hlp with h | h
    · exact inflightDisp _ h item dt rfl
    · cases h
  · exact settledLe
  · exact clearedFresh
  · exact gapOne

theorem schedInv_settle {s : ManagerState} (i : Nat) (item : QueuedRequest) (d : Int)
    (o : Outcome) (t : Int) (ht : s.time ≤ t)
    (hl : s.loops[i]? = some (LoopPhase.inFlight item d))
    (ho : o ≠ Outcome.cleared) (hs : SchedInv s) : SchedInv (settlePost s i item o t) := by
  obtain ⟨reqEq, reqLen, cutoffLe, histLe, histSorted, histEq, queueSorted, queueLe,
    dispSorted, dispLtQueue, dispLe, inflightDisp, settledLe, clearedFresh, gapOne⟩ := hs
  have hitem : (item.idx, d) ∈ s.dispatched :=
    inflightDisp _ (mem_of_getElem?_eq_some hl) item d rfl
  constructor <;> simp only [settlePost]
  · exact reqEq
  · exact reqLen
  · omega
  · exact fun ts h => le_trans (histLe ts h) ht
  · exact histSorted
  · exact histEq
  · exact queueSorted
  · exact queueLe
  · exact dispSorted
  · exact dispLtQueue
  · exact dispLe
  · intro lp hlp it dt he
    subst he
    rcases List.mem_or_eq_of_mem_set hlp with h | h
    · exact inflightDisp _ h it dt rfl
    · cases h
  · intro p hp
    rcases List.mem_append.mp hp with h | h
    · exact settledLe p h
    · rw [List.mem_singleton.mp h]
      exact dispLe _ hitem
  · intro p hp hcl
    rcases List.mem_append.mp hp with h | h
    · exact clearedFresh p h hcl
    · rw [List.mem_singleton.mp h] at hcl
      exact absurd hcl ho
  · exact gapOne

theorem schedInv_clear {s : ManagerState} (t : Int) (ht : s.time ≤ t)
    (hs : SchedInv s) : SchedInv (clearQueuePost s t) := by
  obtain ⟨reqEq, reqLen, cutoffLe, histLe, histSorted, histEq, queueSorted, queueLe,
    dispSorted, dispLtQueue, dispLe, inflightDisp, settledLe, clearedFresh, gapOne⟩ := hs
  constructor <;> simp only [clearQueuePost]
  · exact reqEq
  · exact reqLen
  · omega
  · exact fun ts h => le_trans (histLe ts h) ht
  · exact histSorted
  · exact histEq
  · exact List.Pairwise.nil
  · intro q hq
    exact absurd hq (List.not_mem_nil q)
  · exact dispSorted
  · intro d hd q hq
    exact absurd hq (List.not_mem_nil q)
  · exact dispLe
  · exact inflightDisp
  · intro p hp
    rcases List.mem_append.mp hp with h | h
    · exact settledLe p h
    · obtain ⟨q, hq, rfl⟩ := List.mem_map.mp h
      exact queueLe q hq
  · intro p hp hcl
    rcases List.mem_append.mp hp with h | h
    · exact ⟨fun q hq => absurd hq (List.not_mem_nil q), (clearedFresh p h hcl).2⟩
    · obtain ⟨q, hq, rfl⟩ := List.mem_map.mp h
      refine ⟨fun q' hq' => absurd hq' (List.not_mem_nil q'), ?_⟩
      intro d hd
      exact (dispLtQueue d hd q hq).ne'
  · exact gapOne

theorem cleanup_eq_hist_filter {s : ManagerState} (t : Int) (hs : SchedInv s) :
    cleanupOldRequests s.config.windowMs t s.requests
      = s.hist.filter (fun ts => decide (max s.cutoff (t - s.config.windowMs) < ts)) := by
  unfold cleanupOldRequests
  rw [hs.reqEq, filter_newer_filter]

theorem schedInv_status {s : ManagerState} (t : Int) (ht : s.time ≤ t)
    (hs : SchedInv s) : SchedInv (getStatusPost s t) := by
  have hclean := cleanup_eq_hist_filter t hs
  obtain ⟨reqEq, reqLen, cutoffLe, histLe, histSorted, histEq, queueSorted, queueLe,
    dispSorted, dispLtQueue, dispLe, inflightDisp, settledLe, clearedFresh, gapOne⟩ := hs
  constructor <;> simp only [getStatusPost]
  · exact hclean
  · exact le_trans (List.length_filter_le _ _) reqLen
  · refine max_le ?_ ?_ <;> omega
  · exact fun ts h => le_trans (histLe ts h) ht
  · exact histSorted
  · exact histEq
  · exact queueSorted
  · exact queueLe
  · exact dispSorted
  · exact dispLtQueue
  · exact dispLe
  · exact inflightDisp
  · exact settledLe
  · exact clearedFresh
  · exact gapOne

theorem schedInv_blocked {s : ManagerState} (i : Nat) (t : Int) (ht : s.time ≤ t)
    (hs : SchedInv s) : SchedInv (blockedPost s i t) := by
  have hclean := cleanup_eq_hist_filter t hs
  obtain ⟨reqEq, reqLen, cutoffLe, histLe, histSorted, histEq, queueSorted, queueLe,
    dispSorted, dispLtQueue, dispLe, inflightDisp, settledLe, clearedFresh, gapOne⟩ := hs
  constructor <;> simp only [blockedPost]
  · exact hclean
  · exact le_trans (List.length_filter_le _ _) reqLen
  · refine max_le ?_ ?_ <;> omega
  · exact fun ts h => le_trans (histLe ts h) ht
  · exact histSorted
  · exact histEq
  · exact queueSorted
  · exact queueLe
  · exact dispSorted
  · exact dispLtQueue
  · exact dispLe
  · intro lp hlp item dt he
    subst he
    rcases List.mem_or_eq_of_mem_set hlp with h | h
    · exact inflightDisp _ h item dt rfl
    · cases h
  · exact settledLe
  · exact clearedFresh
  · exact gapOne

theorem schedInv_dispatch {s : ManagerState} (i : Nat) (item : QueuedRequest)
    (rest : List QueuedRequest) (t1 t2 : Int)
    (hW : 0 < s.config.windowMs) (ht : s.time ≤ t1) (ht2 : t1 ≤ t2)
    (hq : s.queue = item :: rest)
    (hc : (cleanupOldRequests s.config.windowMs t1 s.requests).length
            < s.config.maxRequests)
    (hs : SchedInv s) : SchedInv (dispatchPost s i item rest t1 t2) := by
  have hclean := cleanup_eq_hist_filter t1 hs
  obtain ⟨reqEq, reqLen, cutoffLe, histLe, histSorted, histEq, queueSorted, queueLe,
    dispSorted, dispLtQueue, dispLe, inflightDisp, settledLe, clearedFresh, gapOne⟩ := hs
  have hcut : max s.cutoff (t1 - s.config.windowMs) ≤ t1 - s.config.windowMs :=
    max_le (by omega) le_rfl
  have ht2gt : max s.cutoff (t1 - s.config.windowMs) < t2 :=
    lt_of_le_of_lt hcut (by omega)
  have hmemitem : item ∈ s.queue := by rw [hq]; exact List.mem_cons_self item rest
  have hqcons := hq ▸ queueSorted
  constructor <;> simp only [dispatchPost]
  · have h1 : s.cutoff < t2 := lt_of_le_of_lt (le_max_left _ _) ht2gt
    have h2 : t1 - s.config.windowMs < t2 := lt_of_le_of_lt (le_max_right _ _) ht2gt
    rw [List.filter_append, hclean]
    simp [h1, h2]
  · rw [List.length_append]
    simpa using hc
  · refine max_le ?_ ?_ <;> omega
  · intro ts h
    rcases List.mem_append.mp h with h | h
    · exact le_trans (histLe ts h) (by omega)
    · rw [List.mem_singleton.mp h]
  · refine List.pairwise_append.mpr ⟨histSorted, List.pairwise_singleton _ _, ?_⟩
    intro a ha b hb
    rw [List.mem_singleton.mp hb]
    exact le_trans (histLe a ha) (by omega)
  · rw [List.map_append, ← histEq]
    rfl
  · exact (List.pairwise_cons.mp hqcons).2
  · intro q hqm
    exact queueLe q (hq ▸ List.mem_cons_of_mem item hqm)
  · refine List.pairwise_append.mpr ⟨dispSorted, List.pairwise_singleton _ _, ?_⟩
    intro a ha b hb
    rw [List.mem_singleton.mp hb]
    exact dispLtQueue a ha item hmemitem
  · intro d hd q hqm
    rcases List.mem_append.mp hd with h | h
    · exact dispLtQueue d h q (hq ▸ List.mem_cons_of_mem item hqm)
    · rw [List.mem_singleton.mp h]
      exact (List.pairwise_cons.mp hqcons).1 q hqm
  · intro d hd
    rcases List.mem_append.mp hd with h | h
    · exact dispLe d h
    · rw [List.mem_singleton.mp h]
      exact queueLe item hmemitem
  · intro lp hlp it dt he
    subst he
    rcases List.mem_or_eq_of_mem_set hlp with h | h
    · exact List.mem_append_left _ (inflightDisp _ h it dt rfl)
    · injection h with h1 h2
      subst h1; subst h2
      exact List.mem_append_right _ (List.mem_singleton.mpr rfl)
  · exact settledLe
  · intro p hp hcl
    obtain ⟨h1, h2⟩ := clearedFresh p hp hcl
    refine ⟨fun q hqm => h1 q (hq ▸ List.mem_cons_of_mem item hqm), ?_⟩
    intro d hd
    rcases List.mem_append.mp hd with h | h
    · exact h2 d h
    · rw [List.mem_singleton.mp h]
      exact h1 item hmemitem
  · intro hone
    refine List.pairwise_append.mpr ⟨gapOne hone, List.pairwise_singleton _ _, ?_⟩
    intro a ha b hb
    rw [List.mem_singleton.mp hb]
    have hemp : cleanupOldRequests s.config.windowMs t1 s.requests = [] := by
      refine List.length_eq_zero.mp ?_
      rw [hone] at hc
      omega
    rw [hclean] at hemp
    have hle : a ≤ max s.cutoff (t1 - s.config.windowMs) := by
      by_contra hlt
      push_neg at hlt
      have := List.filter_eq_nil_iff.mp hemp a ha
      simp only [decide_eq_true_eq] at this
      exact this hlt
    have : a ≤ t1 - s.config.windowMs := le_trans hle hcut
    omega

theorem lstep_config {l : StepLabel} {s s' : ManagerState} (h : LStep l s s') :
    s'.config = s.config := by
  cases h <;> rfl

theorem reachable_config {cfg : RateLimitConfig} {s : ManagerState}
    (h : Reachable cfg s) : s.config = cfg := by
  induction h with
  | init => rfl
  | step hr hstep ih => rw [lstep_config hstep, ih]

theorem schedInv_step {l : StepLabel} {s s' : ManagerState}
    (hW : 0 < s.config.windowMs) (hs : SchedInv s) (h : LStep l s s') : SchedInv s' := by
  cases h with
  | submit s t ht => exact schedInv_submit t ht hs
  | loopExit s i t ht hl hq => exact schedInv_loopExit i t ht hs
  | dispatch s i item rest t1 t2 ht ht2 hl hq hc =>
      exact schedInv_dispatch i item rest t1 t2 hW ht ht2 hq hc hs
  | blocked s i t ht hl hq hc => exact schedInv_blocked i t ht hs
  | wake s i u t ht hu hl => exact schedInv_wake i t ht hs
  | settle s i item d o t ht hl ho => exact schedInv_settle i item d o t ht hl ho hs
  | clear s t ht => exact schedInv_clear t ht hs
  | status s t ht => exact schedInv_status t ht hs

theorem reachable_schedInv {cfg : RateLimitConfig} (hW : 0 < cfg.windowMs)
    {s : ManagerState} (h : Reachable cfg s) : SchedInv s := by
  induction h with
  | init => exact schedInv_init cfg
  | step hr hstep ih =>
      refine schedInv_step ?_ ih hstep
      rw [reachable_config hr]
      exact hW

/-! ### Demonstration configurations and concrete traces used by witnesses -/

/-- The production configuration: 5 requests per 60-second window
(`API_CONFIG.rateLimit` in `src/lib`). -/
def demoCfg : RateLimitConfig := ⟨5, 60000⟩

/-- One request submitted at time 0. -/
def demoS1 : ManagerState := submitPost (initState demoCfg) 0

/-- The request of `demoS1` dispatched at time 0 and still in flight. -/
def demoS2 : ManagerState := dispatchPost demoS1 0 ⟨1, 0⟩ [] 0 0

theorem demoS1_reachable : Reachable demoCfg demoS1 :=
  Reachable.step Reachable.init (LStep.submit _ 0 (by decide))

theorem demoS2_reachable : Reachable demoCfg demoS2 :=
  Reachable.step demoS1_reachable
    (LStep.dispatch _ 0 ⟨1, 0⟩ [] 0 0 (by decide) (by decide) (by decide) (by decide)
      (by decide))

/-- Configuration of the spec scenario for failure-consumes-quota:
`maxRequests = 1`, `windowMs = 1000`. -/
def demo2Cfg : RateLimitConfig := ⟨1, 1000⟩

/-- Scenario trace: a call submitted at 0, dispatched at 0, failing at 5; a
second call submitted at 10 can only be dispatched at 1000. -/
def demo2S5 : ManagerState :=
  dispatchPost
    (submitPost
      (settlePost (dispatchPost (submitPost (initState demo2Cfg) 0) 0 ⟨1, 0⟩ [] 0 0)
        0 ⟨1, 0⟩ Outcome.failure 5)
      10)
    0 ⟨2, 10⟩ [] 1000 1000

theorem demo2S5_reachable : Reachable demo2Cfg demo2S5 := by
  have h1 : Reachable demo2Cfg (submitPost (initState demo2Cfg) 0) :=
    Reachable.step Reachable.init (LStep.submit _ 0 (by decide))
  have h2 : Reachable demo2Cfg
      (dispatchPost (submitPost (initState demo2Cfg) 0) 0 ⟨1, 0⟩ [] 0 0) :=
    Reachable.step h1
      (LStep.dispatch _ 0 ⟨1, 0⟩ [] 0 0 (by decide) (by decide) (by decide) (by decide)
        (by decide))
  have h3 := Reachable.step h2
    (LStep.settle _ 0 ⟨1, 0⟩ 0 Outcome.failure 5 (by decide) (by decide) (by decide))
  have h4 := Reachable.step h3 (LStep.submit _ 10 (by decide))
  exact Reachable.step h4
    (LStep.dispatch _ 0 ⟨2, 10⟩ [] 1000 1000 (by decide) (by decide) (by decide)
      (by decide) (by decide))

/-! ### C1 — C3: quota invariant, quota consumption on failure, FIFO order -/

/-- C1: quota invariant.  In every reachable state, for every interleaving of
`execute()` submissions, `clearQueue()` calls and drain-loop steps, and every
observation instant `now` at or after the last event, the number of dispatch
timestamps ever recorded that are strictly newer than `now - windowMs` is at
most `maxRequests`.  The bound is enforced by the admission check of
`processQueue` alone: the transition system never lets the provider (an
arbitrary `Outcome`) reject anything. -/
theorem quota_invariant (cfg : RateLimitConfig) (hW : 0 < cfg.windowMs)
    (s : ManagerState) (hs : Reachable cfg s) (now : Int) (hnow : s.time ≤ now) :
    (s.hist.filter (fun ts => decide (now - cfg.windowMs < ts))).length
      ≤ cfg.maxRequests := by
  have hinv := reachable_schedInv hW hs
  have hcfg := reachable_config hs
  have hc : s.cutoff ≤ now - cfg.windowMs := by
    have h := hinv.cutoffLe
    rw [hcfg] at h
    omega
  calc (s.hist.filter (fun ts => decide (now - cfg.windowMs < ts))).length
      ≤ (s.hist.filter (fun ts => decide (s.cutoff < ts))).length :=
        filter_newer_length_mono s.hist hc
    _ = s.requests.length := by rw [hinv.reqEq]
    _ ≤ cfg.maxRequests := by
        have h := hinv.reqLen
        rw [hcfg] at h
        exact h

theorem quota_invariant_witness :
    (0 : Int) < demoCfg.windowMs ∧ demoS2.time ≤ 100 ∧
    (demoS2.hist.filter (fun ts => decide (100 - demoCfg.windowMs < ts))).length
      ≤ demoCfg.maxRequests :=
  ⟨by decide, by decide, quota_invariant demoCfg (by decide) demoS2 demoS2_reachable 100
    (by decide)⟩

/-- C2: failure still consumes quota.  (i) The timestamp of every in-flight
item is already in the recorded history while its `executeFn` runs; (ii) a
dispatch transition ends with its timestamp recorded as the last tracker
entry while the settlement log is untouched, and a settle transition (success
or failure alike) never touches the tracker or the history — so a failing
execution consumes its quota slot exactly as a succeeding one; (iii) with
`maxRequests = 1` any two recorded dispatch timestamps are at least
`windowMs` apart, which for `windowMs = 1000` forces the second of two
scheduled calls to dispatch at least 1000 ms after a first, failing, one. -/
theorem failure_consumes_quota (cfg : RateLimitConfig) (hW : 0 < cfg.windowMs)
    (s : ManagerState) (hs : Reachable cfg s) :
    (∀ (i : Nat) (item : QueuedRequest) (dt : Int),
        s.loops[i]? = some (LoopPhase.inFlight item dt) → dt ∈ s.hist) ∧
    (∀ (s0 : ManagerState) (i : Nat) (item : QueuedRequest)
        (rest : List QueuedRequest) (t1 t2 : Int),
      (dispatchPost s0 i item rest t1 t2).requests.getLast? = some t2 ∧
      (dispatchPost s0 i item rest t1 t2).settled = s0.settled) ∧
    (∀ (s0 : ManagerState) (i : Nat) (item : QueuedRequest) (o : Outcome) (t : Int),
      (settlePost s0 i item o t).requests = s0.requests ∧
      (settlePost s0 i item o t).hist = s0.hist) ∧
    (cfg.maxRequests = 1 →
      List.Pairwise (fun a b => a + cfg.windowMs ≤ b) s.hist) := by
  have hinv := reachable_schedInv hW hs
  have hcfg := reachable_config hs
  refine ⟨?_, ?_, ?_, ?_⟩
  · intro i item dt hl
    have hd := hinv.inflightDisp _ (mem_of_getElem?_eq_some hl) item dt rfl
    rw [hinv.histEq]
    exact List.mem_map.mpr ⟨(item.idx, dt), hd, rfl⟩
  · intro s0 i item rest t1 t2
    exact ⟨List.getLast?_concat _, rfl⟩
  · intro s0 i item o t
    exact ⟨rfl, rfl⟩
  · intro hone
    have h := hinv.gapOne (by rw [hcfg]; exact hone)
    rw [hcfg] at h
    exact h

theorem failure_consumes_quota_witness :
    (0 : Int) < demo2Cfg.windowMs ∧
    ((∀ (i : Nat) (item : QueuedRequest) (dt : Int),
        demo2S5.loops[i]? = some (LoopPhase.inFlight item dt) →
        dt ∈ demo2S5.hist) ∧
     (∀ (s0 : ManagerState) (i : Nat) (item : QueuedRequest)
         (rest : List QueuedRequest) (t1 t2 : Int),
       (dispatchPost s0 i item rest t1 t2).requests.getLast? = some t2 ∧
       (dispatchPost s0 i item rest t1 t2).settled = s0.settled) ∧
     (∀ (s0 : ManagerState) (i : Nat) (item : QueuedRequest) (o : Outcome) (t : Int),
       (settlePost s0 i item o t).requests = s0.requests ∧
       (settlePost s0 i item o t).hist = s0.hist) ∧
     (demo2Cfg.maxRequests = 1 →
       List.Pairwise (fun a b => a + demo2Cfg.windowMs ≤ b) demo2S5.hist)) :=
  ⟨by decide, failure_consumes_quota demo2Cfg (by decide) demo2S5 demo2S5_reachable⟩

/-- C3: strict FIFO dispatch.  In every reachable state the ghost dispatch log
is strictly increasing in submission index (`execute()` assigns indices in
submission order) and non-decreasing in dispatch timestamp: if work item A was
submitted before B and both were dispatched, A's timestamp was recorded and
its `executeFn` started before B's, in every trace — hence independently of
execution durations and outcomes of earlier items. -/
theorem fifo_dispatch (cfg : RateLimitConfig) (hW : 0 < cfg.windowMs)
    (s : ManagerState) (hs : Reachable cfg s) :
    List.Pairwise (fun a b => a.1 < b.1 ∧ a.2 ≤ b.2) s.dispatched := by
  have hinv := reachable_schedInv hW hs
  have h2 : List.Pairwise (fun a b => a.2 ≤ b.2) s.dispatched := by
    have h := hinv.histSorted
    rw [hinv.histEq] at h
    exact List.pairwise_map.mp h
  exact hinv.dispSorted.and h2

theorem fifo_dispatch_witness :
    (0 : Int) < demo2Cfg.windowMs ∧ demo2S5.dispatched = [(1, 0), (2, 1000)] ∧
    List.Pairwise (fun a b => a.1 < b.1 ∧ a.2 ≤ b.2) demo2S5.dispatched :=
  ⟨by decide, by decide, fifo_dispatch demo2Cfg (by decide) demo2S5 demo2S5_reachable⟩

/-! ### C4: single in-flight call -/

theorem icInv_step {l : StepLabel} {s s' : ManagerState} (hstep : LStep l s s')
    (hguard : l = StepLabel.clear → s.loops = [])
    (hidle : s.processing = false → s.loops = []) (hlen : s.loops.length ≤ 1) :
    (s'.processing = false → s'.loops = []) ∧ s'.loops.length ≤ 1 := by
  cases hstep
  case submit =>
    constructor
    · intro h
      simp [submitPost] at h
    · simp only [submitPost]
      split
      · exact hlen
      · next hfalse =>
        rw [hidle (by rwa [Bool.not_eq_true] at hfalse)]
        simp
  case loopExit =>
    rename_i hl hq
    obtain ⟨hi, _⟩ := List.getElem?_eq_some.mp hl
    constructor
    · intro _
      simp only [loopExitPost]
      exact List.length_eq_zero.mp (by rw [List.length_eraseIdx, if_pos hi]; omega)
    · simp only [loopExitPost]
      exact le_trans (List.Sublist.length_le (List.eraseIdx_sublist _ _)) hlen
  case dispatch =>
    constructor
    · intro h
      simp only [dispatchPost] at h ⊢
      rw [hidle h]
      simp
    · simp only [dispatchPost, List.length_set]
      exact hlen
  case blocked =>
    constructor
    · intro h
      simp only [blockedPost] at h ⊢
      rw [hidle h]
      simp
    · simp only [blockedPost, List.length_set]
      exact hlen
  case wake =>
    constructor
    · intro h
      simp only [wakePost] at h ⊢
      rw [hidle h]
      simp
    · simp only [wakePost, List.length_set]
      exact hlen
  case settle =>
    constructor
    · intro h
      simp only [settlePost] at h ⊢
      rw [hidle h]
      simp
    · simp only [settlePost, List.length_set]
      exact hlen
  case clear =>
    constructor
    · intro _
      simp only [clearQueuePost]
      exact hguard rfl
    · simp only [clearQueuePost]
      rw [hguard rfl]
      simp
  case status =>
    exact ⟨hidle, hlen⟩

theorem reachableIC_single_loop {cfg : RateLimitConfig} {sf : ManagerState}
    (h : ReachableIdleClear cfg sf) :
    (sf.processing = false → sf.loops = []) ∧ sf.loops.length ≤ 1 := by
  induction h with
  | init => exact ⟨fun _ => rfl, by simp [initState]⟩
  | step hr hstep hguard ih => exact icInv_step hstep hguard ih.1 ih.2

/-- C4 (amended): at most one drain loop, hence at most one in-flight network
call, holds in every state reachable when `clearQueue()` is only invoked while
the dispatcher is idle.  The unamended claim — the same bound across arbitrary
interleavings including `clearQueue()` during an active drain — is refuted by
`single_inflight_counterexample`: `clearQueue()` resets `processing` while a
loop is suspended on an in-flight call, so the next `execute()` starts a
second concurrent drain loop. -/
theorem single_inflight_of_idle_clear (cfg : RateLimitConfig) (s : ManagerState)
    (hs : ReachableIdleClear cfg s) :
    s.loops.length ≤ 1 ∧ inflightCount s ≤ 1 := by
  have h := (reachableIC_single_loop hs).2
  exact ⟨h, le_trans (List.length_filter_le _ _) h⟩

theorem single_inflight_of_idle_clear_witness :
    ReachableIdleClear demoCfg demoS2 ∧
    (demoS2.loops.length ≤ 1 ∧ inflightCount demoS2 ≤ 1) := by
  have h1 : ReachableIdleClear demoCfg demoS1 :=
    ReachableIdleClear.step ReachableIdleClear.init (LStep.submit _ 0 (by decide))
      (by intro h; cases h)
  have h2 : ReachableIdleClear demoCfg demoS2 :=
    ReachableIdleClear.step h1
      (LStep.dispatch _ 0 ⟨1, 0⟩ [] 0 0 (by decide) (by decide) (by decide) (by decide)
        (by decide))
      (by intro h; cases h)
  exact ⟨h2, single_inflight_of_idle_clear demoCfg demoS2 h2⟩

/-- State reached by: `execute()` at 0 (dispatched, in flight), `clearQueue()`
at 0, `execute()` at 0 again (dispatched by a second drain loop while the
first call is still in flight). -/
def twoInflightState : ManagerState :=
  dispatchPost
    (submitPost
      (clearQueuePost (dispatchPost (submitPost (initState demoCfg) 0) 0 ⟨1, 0⟩ [] 0 0) 0)
      0)
    1 ⟨2, 0⟩ [] 0 0

/-- C4 (counterexample): with the production configuration, the interleaving
submit, dispatch, `clearQueue()` while the call is in flight, submit reaches a
state with two drain loops both suspended on an in-flight call — the claimed
bound of one in-flight call per reachable state is false. -/
theorem single_inflight_counterexample :
    Reachable demoCfg twoInflightState ∧ ¬ inflightCount twoInflightState ≤ 1 := by
  constructor
  · have h3 : Reachable demoCfg
        (clearQueuePost (dispatchPost (submitPost (initState demoCfg) 0) 0 ⟨1, 0⟩ [] 0 0)
          0) :=
      Reachable.step demoS2_reachable (LStep.clear _ 0 (by decide))
    have h4 := Reachable.step h3 (LStep.submit _ 0 (by decide))
    exact Reachable.step h4
      (LStep.dispatch _ 1 ⟨2, 0⟩ [] 0 0 (by decide) (by decide) (by decide) (by decide)
        (by decide))
  · decide

/-! ### C5: clearQueue semantics -/

/-- C5: `clearQueue()` rejects every still-queued request with the
queue-cleared error, empties the queue, resets the dispatcher to idle
(`processing = false`), leaves every suspended drain-loop continuation — in
particular any in-flight call — untouched and never rejects an in-flight item
with the queue-cleared error; and a subsequent `execute()` is accepted and,
whenever the admission check passes, dispatched normally by the drain loop it
starts. -/
theorem clear_queue_semantics (cfg : RateLimitConfig) (hW : 0 < cfg.windowMs)
    (s : ManagerState) (hs : Reachable cfg s) (t tn : Int) (ht : s.time ≤ t)
    (htn : t ≤ tn)
    (hadm : (cleanupOldRequests cfg.windowMs tn s.requests).length < cfg.maxRequests) :
    (∀ q ∈ s.queue, (q.idx, Outcome.cleared) ∈ (clearQueuePost s t).settled) ∧
    (clearQueuePost s t).queue = [] ∧
    (clearQueuePost s t).processing = false ∧
    (clearQueuePost s t).loops = s.loops ∧
    (∀ (i : Nat) (item : QueuedRequest) (dt : Int),
      s.loops[i]? = some (LoopPhase.inFlight item dt) →
      (item.idx, Outcome.cleared) ∉ (clearQueuePost s t).settled) ∧
    (∀ (i : Nat) (item : QueuedRequest) (dt : Int) (o : Outcome),
      s.loops[i]? = some (LoopPhase.inFlight item dt) → o ≠ Outcome.cleared →
      LStep StepLabel.settle (clearQueuePost s t)
        (settlePost (clearQueuePost s t) i item o tn)) ∧
    LStep StepLabel.submit (clearQueuePost s t) (submitPost (clearQueuePost s t) tn) ∧
    LStep StepLabel.dispatch (submitPost (clearQueuePost s t) tn)
      (dispatchPost (submitPost (clearQueuePost s t) tn) s.loops.length
        ⟨s.requestCounter + 1, tn⟩ [] tn tn) ∧
    (dispatchPost (submitPost (clearQueuePost s t) tn) s.loops.length
        ⟨s.requestCounter + 1, tn⟩ [] tn tn).loops[s.loops.length]?
      = some (LoopPhase.inFlight ⟨s.requestCounter + 1, tn⟩ tn) := by
  have hinv := reachable_schedInv hW hs
  have hcfg := reachable_config hs
  refine ⟨?_, rfl, rfl, rfl, ?_, ?_, ?_, ?_, ?_⟩
  · intro q hq
    exact List.mem_append_right _ (List.mem_map.mpr ⟨q, hq, rfl⟩)
  · intro i item dt hl hmem
    have hd := hinv.inflightDisp _ (mem_of_getElem?_eq_some hl) item dt rfl
    rcases List.mem_append.mp hmem with h | h
    · exact (hinv.clearedFresh _ h rfl).2 (item.idx, dt) hd rfl
    · obtain ⟨q, hq, heq⟩ := List.mem_map.mp h
      have : q.idx = item.idx := congrArg Prod.fst heq
      exact absurd (this ▸ hinv.dispLtQueue _ hd q hq) (lt_irrefl _)
  · intro i item dt o hl ho
    exact LStep.settle _ i item dt o tn htn hl ho
  · exact LStep.submit _ tn htn
  · refine LStep.dispatch _ s.loops.length ⟨s.requestCounter + 1, tn⟩ [] tn tn
      le_rfl le_rfl ?_ ?_ ?_
    · show (s.loops ++ [LoopPhase.deciding])[s.loops.length]? = some LoopPhase.deciding
      exact List.getElem?_concat_length _ _
    · rfl
    · show (cleanupOldRequests s.config.windowMs tn s.requests).length
        < s.config.maxRequests
      rw [hcfg]
      exact hadm
  · show ((s.loops ++ [LoopPhase.deciding]).set s.loops.length
      (LoopPhase.inFlight ⟨s.requestCounter + 1, tn⟩ tn))[s.loops.length]?
      = some (LoopPhase.inFlight ⟨s.requestCounter + 1, tn⟩ tn)
    exact List.getElem?_set_self (by simp)

/-- Two requests submitted at time 0, neither dispatched yet. -/
def demoC5S : ManagerState := submitPost demoS1 0

theorem demoC5S_reachable : Reachable demoCfg demoC5S :=
  Reachable.step demoS1_reachable (LStep.submit _ 0 (by decide))

theorem clear_queue_semantics_witness :
    ((1 : Nat), Outcome.cleared) ∈ (clearQueuePost demoC5S 0).settled ∧
    ((2 : Nat), Outcome.cleared) ∈ (clearQueuePost demoC5S 0).settled ∧
    (clearQueuePost demoC5S 0).queue = [] ∧
    (clearQueuePost demoC5S 0).processing = false ∧
    LStep StepLabel.submit (clearQueuePost demoC5S 0)
      (submitPost (clearQueuePost demoC5S 0) 0) := by
  have h := clear_queue_semantics demoCfg (by decide) demoC5S demoC5S_reachable 0 0
    (by decide) (by decide) (by decide)
  exact ⟨h.1 ⟨1, 0⟩ (by decide), h.1 ⟨2, 0⟩ (by decide), h.2.1, h.2.2.1,
    h.2.2.2.2.2.2.1⟩

/-! ### C10: frame conditions of clearQueue and config immutability -/

/-- C10: `clearQueue()` mutates only the pending queue, the `processing` flag
and the settlement log — the window tracker (`requests`, and the ghost
history, dispatch log and cutoff), the request counter, the suspended loops
and the configuration are all left unchanged, so quota slots consumed before
the clear still constrain admission afterwards (the admission input is
literally the same list); and no transition whatsoever modifies the
`RateLimitConfig` after construction. -/
theorem clear_frame_and_config_immutable :
    (∀ (s : ManagerState) (t : Int),
      (clearQueuePost s t).requests = s.requests ∧
      (clearQueuePost s t).hist = s.hist ∧
      (clearQueuePost s t).dispatched = s.dispatched ∧
      (clearQueuePost s t).cutoff = s.cutoff ∧
      (clearQueuePost s t).requestCounter = s.requestCounter ∧
      (clearQueuePost s t).loops = s.loops ∧
      (clearQueuePost s t).config = s.config) ∧
    (∀ (s : ManagerState) (t now : Int),
      cleanupOldRequests (clearQueuePost s t).config.windowMs now
          (clearQueuePost s t).requests
        = cleanupOldRequests s.config.windowMs now s.requests) ∧
    (∀ (l : StepLabel) (s s' : ManagerState), LStep l s s' → s'.config = s.config) := by
  refine ⟨?_, ?_, ?_⟩
  · intro s t
    exact ⟨rfl, rfl, rfl, rfl, rfl, rfl, rfl⟩
  · intro s t now
    rfl
  · intro l s s' h
    exact lstep_config h

theorem clear_frame_and_config_immutable_witness :
    (clearQueuePost demoS2 50).requests = demoS2.requests ∧
    (submitPost demoS2 50).config = demoS2.config :=
  ⟨(clear_frame_and_config_immutable.1 demoS2 50).1,
    clear_frame_and_config_immutable.2.2 StepLabel.submit demoS2 (submitPost demoS2 50)
      (LStep.submit _ 50 (by decide))⟩

/-! ### C9: status snapshot accuracy -/

/-- C9: at every observation point, `getStatus` reports the count of recorded
timestamps strictly newer than `now - windowMs`, the configured maximum, the
current queue length, reports dispatchability exactly when that count is below
`maxRequests`, returns `now` as the next available time when the count is
zero, and otherwise returns `m + windowMs` where `m` is the minimum of the
timestamps surviving the pruning. -/
theorem status_snapshot_accurate (s : ManagerState) (now : Int) :
    (getStatus s now).requestsInWindow
        = (s.requests.filter (fun ts => decide (now - s.config.windowMs < ts))).length ∧
    (getStatus s now).maxRequests = s.config.maxRequests ∧
    (getStatus s now).queueLength = s.queue.length ∧
    ((getStatus s now).canMakeRequest = true ↔
      (s.requests.filter (fun ts => decide (now - s.config.windowMs < ts))).length
        < s.config.maxRequests) ∧
    ((s.requests.filter (fun ts => decide (now - s.config.windowMs < ts))).length = 0 →
      (getStatus s now).nextAvailableTime = now) ∧
    (∀ m : Int,
      minTimestamp (s.requests.filter (fun ts => decide (now - s.config.windowMs < ts)))
          = some m →
      m ∈ s.requests ∧ now - s.config.windowMs < m ∧
      (∀ x ∈ s.requests, now - s.config.windowMs < x → m ≤ x) ∧
      (getStatus s now).nextAvailableTime = m + s.config.windowMs) := by
  refine ⟨rfl, rfl, rfl, ?_, ?_, ?_⟩
  · simp [getStatus, canMakeRequest, cleanupOldRequests]
  · intro h0
    have hnil : cleanupOldRequests s.config.windowMs now s.requests = [] :=
      List.length_eq_zero.mp h0
    simp only [getStatus, hnil]
    rfl
  · intro m hm
    obtain ⟨hmem, hle⟩ := minTimestamp_spec hm
    have hmem' := List.mem_filter.mp hmem
    refine ⟨hmem'.1, by simpa using hmem'.2, ?_, ?_⟩
    · intro x hx hgt
      exact hle x (List.mem_filter.mpr ⟨hx, by simpa using hgt⟩)
    · simp only [getStatus, cleanupOldRequests]
      rw [show minTimestamp
          (s.requests.filter (fun ts => decide (now - s.config.windowMs < ts)))
          = some m from hm]

theorem status_snapshot_accurate_witness :
    (getStatus demoS2 10).requestsInWindow = 1 ∧
    (getStatus demoS2 10).nextAvailableTime = 0 + demoCfg.windowMs := by
  have h := status_snapshot_accurate demoS2 10
  exact ⟨h.1.trans (by decide), (h.2.2.2.2.2 0 (by decide)).2.2.2⟩

/-!
### Data client: `src/services/polygonApi.ts`

The remaining definitions embed the pure response-classification core of
`PolygonApiService`.  An HTTP response is modelled after it has been received
and its JSON body parsed: `ok`, `status`, `statusText`, the optional `error`
field of an error body, and the typed body.  `createAppError` attaches a
wall-clock `timestamp: new Date()` in the source; that metadata field is not
modelled.  Prices are numbers that the service only copies, modelled as
integers; the `new Date(t).toISOString().split('T')[0]` calendar-date
rendering is abstracted to the day number `t / 86400000` (floor division).

The `catch` blocks of `getAllTickers`/`getStockPrices` re-throw only when
`error instanceof Error && error.message.includes('AppError')`.  Every value
thrown inside those `try` blocks is an `AppError` object literal — not an
`Error` instance — and no `createAppError` message contains the substring
`AppError`, so the re-throw guard is always false and every internal error is
re-wrapped as `API_ERROR`.  The embedding encodes that re-wrap
unconditionally.  The alternate revision of the service (an unnamed source
file of the repository, without the rate-limit manager) instead re-throws any
object with a `type` field unchanged and accepts the `DELAYED` status; it is
embedded separately as the `Alt` definitions.
-/

/-- Mirror of `ErrorType` from `src/types`. -/
inductive ErrorType where
  | API_RATE_LIMIT : ErrorType
  | API_ERROR : ErrorType
  | NETWORK_ERROR : ErrorType
  | INVALID_DATE_RANGE : ErrorType
  | NO_DATA_AVAILABLE : ErrorType
  | STOCK_LIMIT_EXCEEDED : ErrorType
  | INVALID_STOCK_SYMBOL : ErrorType
  | UNAUTHORIZED : ErrorType
deriving DecidableEq

mutual
/-- Mirror of `AppError` (`{type, message, details}`; the `timestamp` field is
not modelled). -/
inductive AppErr where
  | mk : ErrorType → String → ErrDetails → AppErr
/-- The `details` payloads the service actually constructs: nothing, the
`{status, symbol}` object of `handleHttpError`, the parsed body of a
non-`OK`-status response (represented by its `status` string), or a caught
inner `AppError` (the third argument of `createAppError` in a catch block). -/
inductive ErrDetails where
  | none : ErrDetails
  | httpInfo : Int → Option String → ErrDetails
  | respBody : String → ErrDetails
  | err : AppErr → ErrDetails
end

/-- Projection of the `type` field. -/
def AppErr.type : AppErr → ErrorType
  | AppErr.mk t _ _ => t

/-- Projection of the `message` field. -/
def AppErr.message : AppErr → String
  | AppErr.mk _ m _ => m

/-- Projection of the `details` field. -/
def AppErr.details : AppErr → ErrDetails
  | AppErr.mk _ _ d => d

/-- Mirror of `HTTP_STATUS.TOO_MANY_REQUESTS` from `src/lib/constants.ts`. -/
def HTTP_TOO_MANY_REQUESTS : Int := 429

/-- Mirror of `HTTP_STATUS.UNAUTHORIZED`. -/
def HTTP_UNAUTHORIZED : Int := 401

/-- Mirror of `HTTP_STATUS.FORBIDDEN`. -/
def HTTP_FORBIDDEN : Int := 403

/-- Mirror of `HTTP_STATUS.NOT_FOUND`. -/
def HTTP_NOT_FOUND : Int := 404

/-- Mirror of `ERROR_MESSAGES.RATE_LIMIT_EXCEEDED`. -/
def RATE_LIMIT_EXCEEDED_MSG : String :=
  "API rate limit exceeded. Please wait before making more requests."

/-- Mirror of `ERROR_MESSAGES.INVALID_API_KEY`. -/
def INVALID_API_KEY_MSG : String :=
  "Invalid or missing API key. Please check your configuration."

/-- An HTTP response whose JSON body has been parsed as `β`; `errorField` is
the optional `error` property `handleHttpError` reads from an error body. -/
structure HttpResponse (β : Type) where
  ok : Bool
  status : Int
  statusText : String
  errorField : Option String
  body : β

/-- Mirror of `handleHttpError`: build the message from the error body when
available, then classify by HTTP status code. -/
def handleHttpError (status : Int) (errorField : Option String)
    (statusText : String) (symbol : Option String) : AppErr :=
  let errorMessage :=
    match errorField with
    | some e => e
    | Option.none => "HTTP " ++ toString status ++ ": " ++ statusText
  if status = HTTP_TOO_MANY_REQUESTS then
    AppErr.mk ErrorType.API_RATE_LIMIT RATE_LIMIT_EXCEEDED_MSG
      (ErrDetails.httpInfo status symbol)
  else if status = HTTP_UNAUTHORIZED ∨ status = HTTP_FORBIDDEN then
    AppErr.mk ErrorType.UNAUTHORIZED INVALID_API_KEY_MSG
      (ErrDetails.httpInfo status Option.none)
  else if status = HTTP_NOT_FOUND then
    AppErr.mk ErrorType.INVALID_STOCK_SYMBOL
      (match symbol with
        | some sym => "Stock symbol " ++ sym ++ " not found"
        | Option.none => "Resource not found")
      (ErrDetails.httpInfo status symbol)
  else
    AppErr.mk ErrorType.API_ERROR errorMessage (ErrDetails.httpInfo status symbol)

/-- One aggregate bar of `PolygonAggregatesResponse.results`. -/
structure AggBar where
  v : Int
  vw : Int
  o : Int
  c : Int
  h : Int
  l : Int
  t : Int
  n : Int
deriving DecidableEq

/-- Mirror of `PolygonAggregatesResponse`; `results` is optional because its
absence is significant to the service. -/
structure PolygonAggregatesResponse where
  status : String
  ticker : String
  queryCount : Int
  resultsCount : Int
  results : Option (List AggBar)
deriving DecidableEq

/-- One normalized OHLCV record (`PriceDataPoint`); `date` is the epoch day
abstracting the `YYYY-MM-DD` rendering, and `open` is spelled `open_` because
`open` is reserved in Lean. -/
structure PricePoint where
  date : Int
  open_ : Int
  high : Int
  low : Int
  close : Int
  volume : Int
  volumeWeightedPrice : Int
  transactions : Int
deriving DecidableEq

/-- The `metadata` block attached by the alternate revision's
`transformAggregatesData`. -/
structure StockMetadata where
  isDelayed : Bool
  status : String
  queryCount : Int
  resultsCount : Int
deriving DecidableEq

/-- Mirror of `StockPriceData`; `metadata` is optional and only set by the
alternate revision. -/
structure StockPriceData where
  symbol : String
  data : List PricePoint
  metadata : Option StockMetadata
deriving DecidableEq

/-- Day number of an epoch-millisecond timestamp (abstraction of
`new Date(t).toISOString().split('T')[0]`). -/
def epochDay (tms : Int) : Int := Int.ediv tms 86400000

/-- Normalization of one bar by `transformAggregatesData`. -/
def toPricePoint (b : AggBar) : PricePoint :=
  { date := epochDay b.t
    open_ := b.o
    high := b.h
    low := b.l
    close := b.c
    volume := b.v
    volumeWeightedPrice := b.vw
    transactions := b.n }

/-- Mirror of `transformAggregatesData` (primary revision: no metadata).  The
source reads `response.results` directly; it is only ever called with a
nonempty `results`, and the model defaults an absent field to `[]`. -/
def transformAggregatesData (resp : PolygonAggregatesResponse) : StockPriceData :=
  { symbol := resp.ticker
    data := (resp.results.getD []).map toPricePoint
    metadata := Option.none }

/-- Mirror of the alternate revision's `transformAggregatesData`, which adds
the metadata block. -/
def transformAggregatesDataAlt (resp : PolygonAggregatesResponse)
    (isDelayed : Bool) : StockPriceData :=
  { symbol := resp.ticker
    data := (resp.results.getD []).map toPricePoint
    metadata := some
      { isDelayed := isDelayed
        status := resp.status
        queryCount := resp.queryCount
        resultsCount := resp.resultsCount } }

/-- Mirror of `getStockPrices` (primary revision) from the parsed response on:
HTTP failure throws `handleHttpError`; a body status other than `OK` throws an
`API_ERROR`; absent or empty `results` resolves to an empty record set;
otherwise the bars are normalized.  Every thrown error then passes through the
`catch` block, whose `instanceof Error` re-throw guard never matches an
`AppError` object literal, so it is re-wrapped as `API_ERROR`. -/
def getStockPricesResult (symbol : String)
    (resp : HttpResponse PolygonAggregatesResponse) : Except AppErr StockPriceData :=
  let attempt : Except AppErr StockPriceData :=
    if resp.ok = false then
      Except.error (handleHttpError resp.status resp.errorField resp.statusText
        (some symbol))
    else if resp.body.status ≠ "OK" then
      Except.error (AppErr.mk ErrorType.API_ERROR
        ("API returned status: " ++ resp.body.status)
        (ErrDetails.respBody resp.body.status))
    else
      match resp.body.results with
      | Option.none => Except.ok { symbol := symbol, data := [], metadata := Option.none }
      | some [] => Except.ok { symbol := symbol, data := [], metadata := Option.none }
      | some _ => Except.ok (transformAggregatesData resp.body)
  match attempt with
  | Except.ok v => Except.ok v
  | Except.error e =>
      Except.error (AppErr.mk ErrorType.API_ERROR
        ("Failed to fetch stock prices for " ++ symbol ++ ": " ++ AppErr.message e)
        (ErrDetails.err e))

/-- Mirror of the alternate revision's `getStockPrices`: an `ERROR` status and
any status other than `OK`/`DELAYED` are rejected, `DELAYED` is a success
carrying `isDelayed` metadata; its `catch` block re-throws any object with a
`type` field unchanged, so no re-wrapping occurs. -/
def getStockPricesResultAlt (symbol : String)
    (resp : HttpResponse PolygonAggregatesResponse) : Except AppErr StockPriceData :=
  if resp.ok = false then
    Except.error (handleHttpError resp.status resp.errorField resp.statusText
      (some symbol))
  else if resp.body.status = "ERROR" then
    Except.error (AppErr.mk ErrorType.API_ERROR
      ("API returned error status: " ++ resp.body.status)
      (ErrDetails.respBody resp.body.status))
  else if ¬ (resp.body.status = "OK" ∨ resp.body.status = "DELAYED") then
    Except.error (AppErr.mk ErrorType.API_ERROR
      ("API returned unexpected status: " ++ resp.body.status)
      (ErrDetails.respBody resp.body.status))
  else
    match resp.body.results with
    | Option.none => Except.ok { symbol := symbol, data := [], metadata := Option.none }
    | some [] => Except.ok { symbol := symbol, data := [], metadata := Option.none }
    | some _ =>
        Except.ok (transformAggregatesDataAlt resp.body
          (decide (resp.body.status = "DELAYED")))

/-- One entry of `PolygonTickersResponse.results`. -/
structure TickerRecord where
  ticker : String
  name : String
  market : String
  locale : String
  primary_exchange : String
  type : String
  active : Bool
deriving DecidableEq

/-- Mirror of `PolygonTickersResponse`. -/
structure PolygonTickersResponse where
  status : String
  results : Option (List TickerRecord)
  count : Int
deriving DecidableEq

/-- Mirror of `USStock` as built by `getAllTickers` (ticker plus the `symbol`
alias). -/
structure USStock where
  ticker : String
  name : String
  market : String
  locale : String
  active : Bool
  type : String
  primaryExchange : String
  symbol : String
deriving DecidableEq

/-- The filter of `getAllTickers`: US common stocks only. -/
def isUsCommonStock (t : TickerRecord) : Bool :=
  decide (t.market = "stocks") && decide (t.locale = "us") && t.active
    && decide (t.type = "CS")

/-- The map of `getAllTickers`. -/
def toUSStock (t : TickerRecord) : USStock :=
  { ticker := t.ticker
    name := t.name
    market := t.market
    locale := t.locale
    active := t.active
    type := t.type
    primaryExchange := t.primary_exchange
    symbol := t.ticker }

/-- Mirror of `getAllTickers` from the parsed response on: HTTP failure throws
`handleHttpError` (no symbol); an absent `results` throws `NO_DATA_AVAILABLE`
(an empty `results` array is truthy in JavaScript and proceeds); otherwise the
records are filtered and mapped.  As in `getStockPricesResult`, every thrown
error is re-wrapped as `API_ERROR` by the catch block. -/
def getAllTickersResult (resp : HttpResponse PolygonTickersResponse) :
    Except AppErr (List USStock) :=
  let attempt : Except AppErr (List USStock) :=
    if resp.ok = false then
      Except.error (handleHttpError resp.status resp.errorField resp.statusText
        Option.none)
    else
      match resp.body.results with
      | Option.none => Except.error (AppErr.mk ErrorType.NO_DATA_AVAILABLE
          "No ticker data received from API" ErrDetails.none)
      | some rs => Except.ok ((rs.filter isUsCommonStock).map toUSStock)
  match attempt with
  | Except.ok v => Except.ok v
  | Except.error e =>
      Except.error (AppErr.mk ErrorType.API_ERROR
        ("Failed to fetch ticker list: " ++ AppErr.message e)
        (ErrDetails.err e))

/-- The `type` field of the error of a settled domain call, `none` on success. -/
def errType {α : Type} : Except AppErr α → Option ErrorType
  | Except.error e => some (AppErr.type e)
  | Except.ok _ => Option.none

/-! ### C6 — C8: error classification, delayed data, empty results -/

/-- Aggregates body with no results, used inside error responses. -/
def emptyAggBody : PolygonAggregatesResponse :=
  { status := "OK", ticker := "AAPL", queryCount := 0, resultsCount := 0
    results := Option.none }

/-- A rate-limited (HTTP 429) aggregates response. -/
def resp429 : HttpResponse PolygonAggregatesResponse :=
  { ok := false, status := 429, statusText := "Too Many Requests"
    errorField := some "Rate limit exceeded", body := emptyAggBody }

/-- A rate-limited (HTTP 429) tickers response. -/
def respT429 : HttpResponse PolygonTickersResponse :=
  { ok := false, status := 429, statusText := "Too Many Requests"
    errorField := some "Rate limit exceeded"
    body := { status := "ERROR", results := Option.none, count := 0 } }

/-- C6 (counterexample): on an HTTP 429 response the error settling the
caller's handle from `getStockPrices` (and from `getAllTickers`) has kind
`API_ERROR`, not `API_RATE_LIMIT` — the `catch` re-throw guard never matches
the `AppError` object thrown by `handleHttpError`, so the classification is
re-wrapped.  The repository's own test asserts exactly this (`rejects
.toMatchObject({type: 'API_ERROR'})` for a 429). -/
theorem rate_limit_kind_counterexample :
    errType (getStockPricesResult "AAPL" resp429) = some ErrorType.API_ERROR ∧
    errType (getStockPricesResult "AAPL" resp429) ≠ some ErrorType.API_RATE_LIMIT ∧
    errType (getAllTickersResult respT429) = some ErrorType.API_ERROR := by
  refine ⟨rfl, ?_, rfl⟩
  decide

/-- C6 (amended): for every HTTP 429 response, `handleHttpError` classifies it
as `API_RATE_LIMIT`, but the error that settles the caller's completion handle
from `getStockPrices`/`getAllTickers` is an `API_ERROR` whose message embeds
the rate-limit message and whose `details` field carries the original
`API_RATE_LIMIT` classified error. -/
theorem rate_limit_kind_amended (symbol : String)
    (resp : HttpResponse PolygonAggregatesResponse)
    (hok : resp.ok = false) (h429 : resp.status = 429)
    (respT : HttpResponse PolygonTickersResponse)
    (hokT : respT.ok = false) (hT429 : respT.status = 429) :
    AppErr.type (handleHttpError resp.status resp.errorField resp.statusText
      (some symbol)) = ErrorType.API_RATE_LIMIT ∧
    getStockPricesResult symbol resp = Except.error (AppErr.mk ErrorType.API_ERROR
      ("Failed to fetch stock prices for " ++ symbol ++ ": "
        ++ RATE_LIMIT_EXCEEDED_MSG)
      (ErrDetails.err (handleHttpError resp.status resp.errorField resp.statusText
        (some symbol)))) ∧
    getAllTickersResult respT = Except.error (AppErr.mk ErrorType.API_ERROR
      ("Failed to fetch ticker list: " ++ RATE_LIMIT_EXCEEDED_MSG)
      (ErrDetails.err (handleHttpError respT.status respT.errorField respT.statusText
        Option.none))) := by
  have hh : handleHttpError resp.status resp.errorField resp.statusText (some symbol)
      = AppErr.mk ErrorType.API_RATE_LIMIT RATE_LIMIT_EXCEEDED_MSG
          (ErrDetails.httpInfo resp.status (some symbol)) := by
    rw [h429]
    rfl
  have hhT : handleHttpError respT.status respT.errorField respT.statusText Option.none
      = AppErr.mk ErrorType.API_RATE_LIMIT RATE_LIMIT_EXCEEDED_MSG
          (ErrDetails.httpInfo respT.status Option.none) := by
    rw [hT429]
    rfl
  refine ⟨by rw [hh]; rfl, ?_, ?_⟩
  · simp [getStockPricesResult, hok, hh, AppErr.message]
  · simp [getAllTickersResult, hokT, hhT, AppErr.message]

theorem rate_limit_kind_amended_witness :
    AppErr.type (handleHttpError resp429.status resp429.errorField resp429.statusText
      (some "AAPL")) = ErrorType.API_RATE_LIMIT :=
  (rate_limit_kind_amended "AAPL" resp429 rfl rfl respT429 rfl rfl).1

/-- One aggregate bar (the bar used in the repository's tests). -/
def delayedBar : AggBar :=
  { v := 1000000, vw := 101, o := 100, c := 102, h := 105, l := 95
    t := 1640995200000, n := 1000 }

/-- An HTTP-successful aggregates response with the delayed-data status and
one bar. -/
def respDelayed : HttpResponse PolygonAggregatesResponse :=
  { ok := true, status := 200, statusText := "OK", errorField := Option.none
    body := { status := "DELAYED", ticker := "AAPL", queryCount := 1
              resultsCount := 1, results := some [delayedBar] } }

/-- C7 (counterexample): on an HTTP-successful response with status `DELAYED`
and one bar, the primary `getStockPrices` rejects the completion handle with
an `API_ERROR` (`data.status !== 'OK'` throws) instead of resolving with a
delayed-data flag.  The delayed-as-success behaviour exists only in the
alternate revision of the service. -/
theorem delayed_success_counterexample :
    errType (getStockPricesResult "AAPL" respDelayed) = some ErrorType.API_ERROR := rfl

/-- C7 (amended): the primary `getStockPrices` rejects every HTTP-successful
response whose body status is `DELAYED` with an `API_ERROR`; the alternate
revision of the service resolves such a response (with at least one bar)
successfully with the normalized bars and an `isDelayed = true` metadata
flag. -/
theorem delayed_success_amended (symbol : String)
    (resp : HttpResponse PolygonAggregatesResponse) (hok : resp.ok = true)
    (hst : resp.body.status = "DELAYED") (b : AggBar) (bs : List AggBar)
    (hres : resp.body.results = some (b :: bs)) :
    getStockPricesResultAlt symbol resp = Except.ok
      { symbol := resp.body.ticker
        data := (b :: bs).map toPricePoint
        metadata := some
          { isDelayed := true
            status := resp.body.status
            queryCount := resp.body.queryCount
            resultsCount := resp.body.resultsCount } } ∧
    errType (getStockPricesResult symbol resp) = some ErrorType.API_ERROR := by
  constructor
  · simp [getStockPricesResultAlt, hok, hst, hres, transformAggregatesDataAlt]
  · simp [getStockPricesResult, hok, hst, errType, AppErr.type]

theorem delayed_success_amended_witness :
    getStockPricesResultAlt "AAPL" respDelayed = Except.ok
      { symbol := "AAPL"
        data := [delayedBar].map toPricePoint
        metadata := some
          { isDelayed := true, status := "DELAYED", queryCount := 1
            resultsCount := 1 } } :=
  (delayed_success_amended "AAPL" respDelayed rfl rfl delayedBar [] rfl).1

/-- An HTTP-successful tickers response whose `results` field is absent. -/
def respTickAbsent : HttpResponse PolygonTickersResponse :=
  { ok := true, status := 200, statusText := "OK", errorField := Option.none
    body := { status := "OK", results := Option.none, count := 0 } }

/-- An HTTP-successful tickers response with an empty `results` array. -/
def respTickEmpty : HttpResponse PolygonTickersResponse :=
  { ok := true, status := 200, statusText := "OK", errorField := Option.none
    body := { status := "OK", results := some [], count := 0 } }

/-- An HTTP-successful aggregates response with an empty `results` array. -/
def respAggEmpty : HttpResponse PolygonAggregatesResponse :=
  { ok := true, status := 200, statusText := "OK", errorField := Option.none
    body := { status := "OK", ticker := "AAPL", queryCount := 0, resultsCount := 0
              results := some [] } }

/-- C8 (counterexample): an HTTP-successful tickers response whose `results`
field is absent does not resolve to an empty record set — `getAllTickers`
throws `NO_DATA_AVAILABLE` on `!data.results` and the caller's handle is
rejected with the re-wrapped `API_ERROR`. -/
theorem empty_results_counterexample :
    errType (getAllTickersResult respTickAbsent) = some ErrorType.API_ERROR := rfl

/-- C8 (amended): for `getStockPrices` with HTTP success and status `OK`, an
absent or empty `results` resolves successfully to an empty bar list; for
`getAllTickers` with HTTP success an empty `results` array resolves to an
empty ticker list; but an absent `results` field in `getAllTickers` is
rejected with an `API_ERROR` wrapping the `NO_DATA_AVAILABLE` error. -/
theorem empty_results_amended (symbol : String)
    (resp : HttpResponse PolygonAggregatesResponse) (hok : resp.ok = true)
    (hst : resp.body.status = "OK")
    (hres : resp.body.results = Option.none ∨ resp.body.results = some [])
    (respT : HttpResponse PolygonTickersResponse) (hokT : respT.ok = true)
    (hresT : respT.body.results = some [])
    (respT2 : HttpResponse PolygonTickersResponse) (hokT2 : respT2.ok = true)
    (hresT2 : respT2.body.results = Option.none) :
    getStockPricesResult symbol resp
      = Except.ok { symbol := symbol, data := [], metadata := Option.none } ∧
    getAllTickersResult respT = Except.ok [] ∧
    getAllTickersResult respT2 = Except.error (AppErr.mk ErrorType.API_ERROR
      ("Failed to fetch ticker list: " ++ "No ticker data received from API")
      (ErrDetails.err (AppErr.mk ErrorType.NO_DATA_AVAILABLE
        "No ticker data received from API" ErrDetails.none))) := by
  refine ⟨?_, ?_, ?_⟩
  · rcases hres with h | h <;> simp [getStockPricesResult, hok, hst, h]
  · simp [getAllTickersResult, hokT, hresT, isUsCommonStock]
  · simp [getAllTickersResult, hokT2, hresT2, AppErr.message]

theorem empty_results_amended_witness :
    getStockPricesResult "AAPL" respAggEmpty
      = Except.ok { symbol := "AAPL", data := [], metadata := Option.none } ∧
    getAllTickersResult respTickEmpty = Except.ok [] := by
  have h := empty_results_amended "AAPL" respAggEmpty rfl rfl (Or.inr rfl)
    respTickEmpty rfl rfl respTickAbsent rfl rfl
  exact ⟨h.1, h.2.1⟩
